import Mathlib

/-!
Shallow embedding of `knowledge_base.py` (Equity_Research_Tool).

Records are Python dicts, modelled as association lists from field names to
values.  Timestamps are produced by `datetime.now().isoformat()`; a
well-formed timestamp string is abstracted to its time value in seconds
(constructor `vTime`), while `vStr` covers strings that do not parse as
timestamps.  Python exceptions raised while computing a value are modelled
with `Option` (`none` = an exception escaped).
-/

namespace EquityKB

/-- A Python value that can sit in a record field: a (non-timestamp) string,
`None`, a list of strings, or a well-formed ISO timestamp string abstracted
to its time in seconds. -/
inductive Value where
  | vStr (s : String)
  | vNone
  | vList (l : List String)
  | vTime (t : Int)
deriving DecidableEq, Repr

/-- A record is a Python dict: an association list from field names to values,
in insertion order. -/
abbrev Record := List (String × Value)

/-- `item.get(k)` / `item[k]`: the value at the first occurrence of key `k`. -/
def dget (r : Record) (k : String) : Option Value :=
  match r with
  | [] => none
  | p :: rest => if p.1 = k then some p.2 else dget rest k

/-- `k in item`: whether the dict has key `k`. -/
def hasKey (r : Record) (k : String) : Bool :=
  match r with
  | [] => false
  | p :: rest => p.1 = k || hasKey rest k

/-- Replace the value at every occurrence of key `k` (a Python dict has at most
one), keeping the key position. -/
def setKey (r : Record) (k : String) (v : Value) : Record :=
  r.map (fun p => if p.1 = k then (k, v) else p)

/-- The body of the update loop of `KnowledgeBase.update_item`:
`if key in item: item[key] = value`. -/
def dsetIfPresent (r : Record) (k : String) (v : Value) : Record :=
  if hasKey r k then setKey r k v else r

/-- `item[k] = v` on a Python dict: overwrite in place if the key exists,
else append the new key at the end. -/
def dset (r : Record) (k : String) (v : Value) : Record :=
  if hasKey r k then setKey r k v else r ++ [(k, v)]

/-- Python `s.lower()` (ASCII, which is all the stored text exercises). -/
def lowerStr (s : String) : String :=
  String.mk (s.data.map Char.toLower)

/-- Python `s.upper()`. -/
def upperStr (s : String) : String :=
  String.mk (s.data.map Char.toUpper)

/-- Python substring test `needle in hay` on strings. -/
def substrB (needle hay : String) : Bool :=
  decide (needle.toList <:+: hay.toList)

/-- Helper for `splitWs`: walk the characters, `acc` holding the reversed
current word. -/
def splitWsAux : List Char → List Char → List String
  | [], acc => if acc.isEmpty then [] else [String.mk acc.reverse]
  | c :: cs, acc =>
      if c.isWhitespace then
        if acc.isEmpty then splitWsAux cs []
        else String.mk acc.reverse :: splitWsAux cs []
      else splitWsAux cs (c :: acc)

/-- Python `s.split()`: split on whitespace runs, dropping empty pieces. -/
def splitWs (s : String) : List String :=
  splitWsAux s.data []

/-- `item.get(k, '').lower()`: an absent key yields `""`; a string value is
lowercased; `.lower()` on a non-string value raises (`none`).  (`vTime`
values never occur under the text fields this is applied to.) -/
def getLower (r : Record) (k : String) : Option String :=
  match dget r k with
  | none => some ""
  | some (.vStr s) => some (lowerStr s)
  | some _ => none

/-- `[t.upper() for t in item.get('related_tickers', [])]` source list: an
absent key defaults to `[]`; iterating a string yields its characters;
iterating `None` (or a timestamp, unreachable here) raises. -/
def getStrList (r : Record) (k : String) : Option (List String) :=
  match dget r k with
  | none => some []
  | some (.vList l) => some l
  | some (.vStr s) => some (s.toList.map fun c => String.mk [c])
  | some _ => none

/-- `datetime.fromisoformat(item.get('created_at', ''))`: only a well-formed
timestamp string parses; `''`, other strings, `None` or lists raise
(caught by the bare `except`). -/
def parseTime (v : Option Value) : Option Int :=
  match v with
  | some (.vTime t) => some t
  | _ => none

/-- One backing JSON file: either readable with a list of records, or
missing/unreadable/corrupt (then `_load_data` catches and yields `[]`). -/
inductive FileState where
  | ok (items : List Record)
  | corrupt
deriving DecidableEq, Repr

/-- `KnowledgeBase._load_data`. -/
def loadData : FileState → List Record
  | .ok items => items
  | .corrupt => []

/-- `KnowledgeBase._save_data` (the success case; a write failure raises and
is re-raised, outside the scope of the claims below). -/
def saveData (items : List Record) : FileState :=
  .ok items

/-- The three collection files of a `KnowledgeBase`. -/
structure KBState where
  notes : FileState
  articles : FileState
  research : FileState
deriving DecidableEq, Repr

/-- A knowledge base whose three files hold the given record lists. -/
def mkKB (ns as rs : List Record) : KBState :=
  ⟨.ok ns, .ok as, .ok rs⟩

/-- The dict built by `add_note` (`tags or []` maps both `None` and `[]`
to `[]`; `t1`, `t2` are the two successive `datetime.now()` calls). -/
def mkNote (noteId : String) (title content : Value)
    (tags relatedTickers : Option (List String)) (t1 t2 : Int) : Record :=
  [("id", .vStr noteId), ("type", .vStr "note"), ("title", title),
   ("content", content), ("tags", .vList (tags.getD [])),
   ("related_tickers", .vList (relatedTickers.getD [])),
   ("created_at", .vTime t1), ("updated_at", .vTime t2)]

/-- The dict built by `add_article`. -/
def mkArticle (articleId : String) (title url summary content : Value)
    (tags relatedTickers : Option (List String)) (t1 t2 : Int) : Record :=
  [("id", .vStr articleId), ("type", .vStr "article"), ("title", title),
   ("url", url), ("summary", summary), ("content", content),
   ("tags", .vList (tags.getD [])),
   ("related_tickers", .vList (relatedTickers.getD [])),
   ("created_at", .vTime t1), ("updated_at", .vTime t2)]

/-- The dict built by `add_research`. -/
def mkResearch (researchId : String) (title content source : Value)
    (tags relatedTickers : Option (List String)) (t1 t2 : Int) : Record :=
  [("id", .vStr researchId), ("type", .vStr "research"), ("title", title),
   ("content", content), ("source", source),
   ("tags", .vList (tags.getD [])),
   ("related_tickers", .vList (relatedTickers.getD [])),
   ("created_at", .vTime t1), ("updated_at", .vTime t2)]

/-- `KnowledgeBase.add_note`: build the dict, load the notes file, append,
save, return the fresh id.  No validation is performed anywhere. -/
def addNote (s : KBState) (noteId : String) (title content : Value)
    (tags relatedTickers : Option (List String)) (t1 t2 : Int) :
    String × KBState :=
  let note := mkNote noteId title content tags relatedTickers t1 t2
  (noteId, { s with notes := saveData (loadData s.notes ++ [note]) })

/-- `KnowledgeBase.add_article`. -/
def addArticle (s : KBState) (articleId : String) (title url summary content : Value)
    (tags relatedTickers : Option (List String)) (t1 t2 : Int) :
    String × KBState :=
  let article := mkArticle articleId title url summary content tags relatedTickers t1 t2
  (articleId, { s with articles := saveData (loadData s.articles ++ [article]) })

/-- `KnowledgeBase.add_research`. -/
def addResearch (s : KBState) (researchId : String) (title content source : Value)
    (tags relatedTickers : Option (List String)) (t1 t2 : Int) :
    String × KBState :=
  let res := mkResearch researchId title content source tags relatedTickers t1 t2
  (researchId, { s with research := saveData (loadData s.research ++ [res]) })

/-- `item['id'] == item_id` (all records built by the adds carry an `id`). -/
def idMatches (r : Record) (itemId : String) : Bool :=
  dget r "id" == some (.vStr itemId)

/-- `KnowledgeBase._matches_search`.  `none` models an escaped exception
(e.g. `.lower()` on a `None`-valued `content`/`summary`). -/
def matchesSearch (r : Record) (query : String) (ticker : Option String)
    (tags : Option (List String)) : Option Bool := do
  let q := lowerStr query
  let title ← getLower r "title"
  let content ← getLower r "content"
  let summary ← getLower r "summary"
  let textMatch := substrB q title || substrB q content || substrB q summary
  let tickerMatch ←
    match ticker with
    | none => pure true
    | some t =>
        if t = "" then pure true
        else do
          let rts ← getStrList r "related_tickers"
          pure ((rts.map upperStr).contains (upperStr t))
  let tagsMatch ←
    match tags with
    | none => pure true
    | some ts =>
        if ts = [] then pure true
        else do
          let its ← getStrList r "tags"
          let itemTags := its.map lowerStr
          let searchTags := ts.map lowerStr
          pure (searchTags.any (fun t => itemTags.contains t))
  pure (textMatch && tickerMatch && tagsMatch)

/-- `(datetime.now() - created_at).days`: floor division of the elapsed
seconds, as Python `timedelta.days` floors toward minus infinity. -/
def daysOld (now created : Int) : Int :=
  Int.fdiv (now - created) 86400

/-- The recency-bonus block of `_calculate_relevance` (bare `except: pass`). -/
def recencyBonus (now : Int) (createdVal : Option Value) : ℚ :=
  match parseTime createdVal with
  | some c =>
      if daysOld now c < 30 then 0.5
      else if daysOld now c < 90 then 0.2
      else 0
  | none => 0

/-- `KnowledgeBase._calculate_relevance`: three per-term loops over title,
content and summary, then the recency bonus. -/
def calcRelevance (r : Record) (query : String) (now : Int) : Option ℚ := do
  let terms := splitWs (lowerStr query)
  let title ← getLower r "title"
  let content ← getLower r "content"
  let summary ← getLower r "summary"
  let s1 := terms.foldl (fun acc t => if substrB t title then acc + 3.0 else acc) 0
  let s2 := terms.foldl (fun acc t => if substrB t content then acc + 1.0 else acc) s1
  let s3 := terms.foldl (fun acc t => if substrB t summary then acc + 1.5 else acc) s2
  pure (s3 + recencyBonus now (dget r "created_at"))

/-- A search hit: the record together with the `collection` and
`relevance_score` keys the code adds to it. -/
structure SearchResult where
  item : Record
  collection : String
  score : ℚ
deriving DecidableEq, Repr

/-- The collection-selection block of `search_knowledge_base`. -/
def searchCollections (searchType : String) (s : KBState) :
    List (String × FileState) :=
  (if searchType = "all" ∨ searchType = "notes" then [("notes", s.notes)] else []) ++
  (if searchType = "all" ∨ searchType = "articles" then [("articles", s.articles)] else []) ++
  (if searchType = "all" ∨ searchType = "research" then [("research", s.research)] else [])

/-- The inner loop of `search_knowledge_base` over one collection, in storage
order; `none` models an exception escaping `_matches_search` or
`_calculate_relevance`. -/
def matchItems (collName : String) (query : String) (ticker : Option String)
    (tags : Option (List String)) (now : Int) :
    List Record → Option (List SearchResult)
  | [] => some []
  | r :: rest => do
      let m ← matchesSearch r query ticker tags
      if m then
        let sc ← calcRelevance r query now
        let tail ← matchItems collName query ticker tags now rest
        pure (⟨r, collName, sc⟩ :: tail)
      else
        matchItems collName query ticker tags now rest

/-- The full match phase of `search_knowledge_base`: collections in the fixed
order notes, articles, research. -/
def searchAll (colls : List (String × FileState)) (query : String)
    (ticker : Option String) (tags : Option (List String)) (now : Int) :
    Option (List SearchResult) :=
  match colls with
  | [] => some []
  | c :: rest => do
      let here ← matchItems c.1 query ticker tags now (loadData c.2)
      let there ← searchAll rest query ticker tags now
      pure (here ++ there)

/-- `results.sort(key=..., reverse=True)`: Python list sort is stable; a
stable descending sort is insertion sort with relation
`fun a b => b.score ≤ a.score`. -/
def sortByScore (l : List SearchResult) : List SearchResult :=
  List.insertionSort (fun a b => b.score ≤ a.score) l

/-- `KnowledgeBase.search_knowledge_base`: any exception in the loop is caught
by the enclosing `try` and degrades to `[]`; otherwise the matches are
sorted by score descending (stably). -/
def searchKB (s : KBState) (query : String) (searchType : String)
    (ticker : Option String) (tags : Option (List String)) (now : Int) :
    List SearchResult :=
  match searchAll (searchCollections searchType s) query ticker tags now with
  | none => []
  | some matched => sortByScore matched

/-- `KnowledgeBase.get_item`: with `item_type` given, only that collection is
scanned; with `None`, notes then articles then research. -/
def getItem (s : KBState) (itemId : String) (itemType : Option String) :
    Option Record :=
  let tryColl := fun (name : String) (fs : FileState) =>
    if itemType = some name ∨ itemType = none then
      (loadData fs).find? (fun r => idMatches r itemId)
    else none
  ((tryColl "notes" s.notes).or ((tryColl "articles" s.articles).or
    (tryColl "research" s.research)))

/-- The update loop of `update_item`: `for key, value in updates.items():
if key in item: item[key] = value`. -/
def applyUpdates (r : Record) (updates : List (String × Value)) : Record :=
  updates.foldl (fun acc kv => dsetIfPresent acc kv.1 kv.2) r

/-- The whole per-record mutation of `update_item`: apply the updates, then
`item['updated_at'] = datetime.now().isoformat()`. -/
def updateRecord (r : Record) (updates : List (String × Value)) (now : Int) :
    Record :=
  dset (applyUpdates r updates) "updated_at" (.vTime now)

/-- The record-location loop of `update_item`: mutate the first record whose
`id` matches, leaving the rest in place; `none` if no record matches. -/
def updateInList (itemId : String) (updates : List (String × Value)) (now : Int) :
    List Record → Option (List Record)
  | [] => none
  | r :: rest =>
      if idMatches r itemId then some (updateRecord r updates now :: rest)
      else (updateInList itemId updates now rest).map (fun l => r :: l)

/-- The `item_type` dispatch shared by `update_item` and `delete_item`. -/
def collOf (s : KBState) (itemType : String) : Option FileState :=
  if itemType = "notes" then some s.notes
  else if itemType = "articles" then some s.articles
  else if itemType = "research" then some s.research
  else none

/-- Write back the named collection file. -/
def setColl (s : KBState) (itemType : String) (fs : FileState) : KBState :=
  if itemType = "notes" then { s with notes := fs }
  else if itemType = "articles" then { s with articles := fs }
  else if itemType = "research" then { s with research := fs }
  else s

/-- `KnowledgeBase.update_item`: unknown `item_type` or absent `id` returns
`False` without saving; otherwise the mutated list is saved and `True`
returned. -/
def updateItem (s : KBState) (itemId : String) (updates : List (String × Value))
    (itemType : String) (now : Int) : Bool × KBState :=
  match collOf s itemType with
  | none => (false, s)
  | some fs =>
      match updateInList itemId updates now (loadData fs) with
      | none => (false, s)
      | some items => (true, setColl s itemType (saveData items))

/-- `KnowledgeBase.delete_item`: filter out every record with the given `id`;
save and return `True` only if the list shrank. -/
def deleteItem (s : KBState) (itemId : String) (itemType : String) :
    Bool × KBState :=
  match collOf s itemType with
  | none => (false, s)
  | some fs =>
      let items := loadData fs
      let remaining := items.filter (fun r => !(idMatches r itemId))
      if remaining.length < items.length then
        (true, setColl s itemType (saveData remaining))
      else (false, s)

/-- `KnowledgeBase.get_all_items`. -/
def getAllItems (s : KBState) (itemType : String) : List Record :=
  if itemType = "notes" then loadData s.notes
  else if itemType = "articles" then loadData s.articles
  else if itemType = "research" then loadData s.research
  else if itemType = "all" then
    loadData s.notes ++ loadData s.articles ++ loadData s.research
  else []

/-! ### Dictionary lemmas -/

theorem dget_cons (p : String × Value) (rest : Record) (k : String) :
    dget (p :: rest) k = if p.1 = k then some p.2 else dget rest k := rfl

theorem hasKey_cons (p : String × Value) (rest : Record) (k : String) :
    hasKey (p :: rest) k = (decide (p.1 = k) || hasKey rest k) := rfl

theorem setKey_cons (p : String × Value) (rest : Record) (k : String) (v : Value) :
    setKey (p :: rest) k v = (if p.1 = k then (k, v) else p) :: setKey rest k v := rfl

theorem dget_eq_none (r : Record) (k : String) (h : hasKey r k = false) :
    dget r k = none := by
  induction r with
  | nil => rfl
  | cons p rest ih =>
      rw [hasKey_cons, Bool.or_eq_false_iff, decide_eq_false_iff_not] at h
      simp [dget_cons, h.1, ih h.2]

theorem dget_setKey_ne (r : Record) (k k' : String) (v : Value) (h : k' ≠ k) :
    dget (setKey r k v) k' = dget r k' := by
  induction r with
  | nil => rfl
  | cons p rest ih =>
      rw [setKey_cons]
      by_cases hp : p.1 = k
      · simp [dget_cons, hp, Ne.symm h, ih]
      · simp only [if_neg hp]
        by_cases hp' : p.1 = k'
        · simp [dget_cons, hp']
        · simp [dget_cons, hp', ih]

theorem dget_setKey_self (r : Record) (k : String) (v : Value)
    (h : hasKey r k = true) : dget (setKey r k v) k = some v := by
  induction r with
  | nil => simp [hasKey] at h
  | cons p rest ih =>
      rw [setKey_cons]
      by_cases hp : p.1 = k
      · simp [dget_cons, hp]
      · rw [hasKey_cons, Bool.or_eq_true, decide_eq_true_eq] at h
        rcases h with h | h
        · exact absurd h hp
        · simp [dget_cons, hp, ih h]

theorem hasKey_setKey (r : Record) (k k' : String) (v : Value) :
    hasKey (setKey r k v) k' = hasKey r k' := by
  induction r with
  | nil => rfl
  | cons p rest ih =>
      rw [setKey_cons]
      by_cases hp : p.1 = k
      · simp [hasKey_cons, hp, ih]
      · simp [hasKey_cons, hp, ih]

theorem dget_append_single_ne (r : Record) (k k' : String) (v : Value)
    (h : k' ≠ k) : dget (r ++ [(k, v)]) k' = dget r k' := by
  induction r with
  | nil => simp [dget, Ne.symm h]
  | cons p rest ih =>
      by_cases hp : p.1 = k'
      · simp [dget_cons, List.cons_append, hp]
      · simp [dget_cons, List.cons_append, hp, ih]

theorem dget_append_single_self (r : Record) (k : String) (v : Value)
    (h : hasKey r k = false) : dget (r ++ [(k, v)]) k = some v := by
  induction r with
  | nil => simp [dget]
  | cons p rest ih =>
      rw [hasKey_cons, Bool.or_eq_false_iff, decide_eq_false_iff_not] at h
      simp [dget_cons, List.cons_append, h.1, ih h.2]

theorem dsetIfPresent_keyless (r : Record) (k : String) (v : Value)
    (h : hasKey r k = false) : dsetIfPresent r k v = r := by
  simp [dsetIfPresent, h]

theorem dget_dsetIfPresent_ne (r : Record) (k k' : String) (v : Value)
    (h : k' ≠ k) : dget (dsetIfPresent r k v) k' = dget r k' := by
  unfold dsetIfPresent
  split
  · exact dget_setKey_ne r k k' v h
  · rfl

theorem dget_dsetIfPresent_self (r : Record) (k : String) (v : Value)
    (h : hasKey r k = true) : dget (dsetIfPresent r k v) k = some v := by
  simp [dsetIfPresent, h, dget_setKey_self r k v h]

theorem hasKey_dsetIfPresent (r : Record) (k k' : String) (v : Value) :
    hasKey (dsetIfPresent r k v) k' = hasKey r k' := by
  unfold dsetIfPresent
  split
  · exact hasKey_setKey r k k' v
  · rfl

theorem dget_dset_self (r : Record) (k : String) (v : Value) :
    dget (dset r k v) k = some v := by
  by_cases h : hasKey r k
  · simp [dset, h, dget_setKey_self r k v h]
  · simp only [Bool.not_eq_true] at h
    simp [dset, h, dget_append_single_self r k v h]

theorem dget_dset_ne (r : Record) (k k' : String) (v : Value) (h : k' ≠ k) :
    dget (dset r k v) k' = dget r k' := by
  by_cases hk : hasKey r k
  · simp [dset, hk, dget_setKey_ne r k k' v h]
  · simp only [Bool.not_eq_true] at hk
    simp [dset, hk, dget_append_single_ne r k k' v h]

/-! ### Update lemmas -/

theorem dget_applyUpdates_not_mem (updates : List (String × Value)) (r : Record)
    (k : String) (h : k ∉ updates.map Prod.fst) :
    dget (applyUpdates r updates) k = dget r k := by
  induction updates generalizing r with
  | nil => rfl
  | cons kv rest ih =>
      simp only [List.map_cons, List.mem_cons, not_or] at h
      simp only [applyUpdates, List.foldl_cons]
      rw [show (List.foldl (fun acc kv => dsetIfPresent acc kv.1 kv.2) (dsetIfPresent r kv.1 kv.2) rest) = applyUpdates (dsetIfPresent r kv.1 kv.2) rest from rfl]
      rw [ih (dsetIfPresent r kv.1 kv.2) h.2]
      exact dget_dsetIfPresent_ne r kv.1 k kv.2 h.1

theorem hasKey_applyUpdates (updates : List (String × Value)) (r : Record)
    (k : String) : hasKey (applyUpdates r updates) k = hasKey r k := by
  induction updates generalizing r with
  | nil => rfl
  | cons kv rest ih =>
      simp only [applyUpdates, List.foldl_cons]
      rw [show (List.foldl (fun acc kv => dsetIfPresent acc kv.1 kv.2) (dsetIfPresent r kv.1 kv.2) rest) = applyUpdates (dsetIfPresent r kv.1 kv.2) rest from rfl]
      rw [ih (dsetIfPresent r kv.1 kv.2)]
      exact hasKey_dsetIfPresent r kv.1 k kv.2

theorem dget_applyUpdates_mem (updates : List (String × Value)) (r : Record)
    (k : String) (v : Value) (hnd : (updates.map Prod.fst).Nodup)
    (hmem : (k, v) ∈ updates) (hk : hasKey r k = true) :
    dget (applyUpdates r updates) k = some v := by
  induction updates generalizing r with
  | nil => simp at hmem
  | cons kv rest ih =>
      simp only [List.map_cons, List.nodup_cons] at hnd
      simp only [applyUpdates, List.foldl_cons]
      rw [show (List.foldl (fun acc kv => dsetIfPresent acc kv.1 kv.2) (dsetIfPresent r kv.1 kv.2) rest) = applyUpdates (dsetIfPresent r kv.1 kv.2) rest from rfl]
      rcases List.mem_cons.mp hmem with heq | hrest
      · subst heq
        rw [dget_applyUpdates_not_mem rest _ k hnd.1]
        exact dget_dsetIfPresent_self r k v hk
      · exact ih _ hnd.2 hrest (by rw [hasKey_dsetIfPresent]; exact hk)

theorem dget_updateRecord_updated_at (r : Record) (updates : List (String × Value))
    (now : Int) : dget (updateRecord r updates now) "updated_at" = some (.vTime now) :=
  dget_dset_self _ _ _

theorem dget_updateRecord_not_mem (r : Record) (updates : List (String × Value))
    (now : Int) (k : String) (hk : k ≠ "updated_at")
    (h : k ∉ updates.map Prod.fst) :
    dget (updateRecord r updates now) k = dget r k := by
  unfold updateRecord
  rw [dget_dset_ne _ _ _ _ hk]
  exact dget_applyUpdates_not_mem updates r k h

theorem dget_updateRecord_mem (r : Record) (updates : List (String × Value))
    (now : Int) (k : String) (v : Value) (hk : k ≠ "updated_at")
    (hnd : (updates.map Prod.fst).Nodup) (hmem : (k, v) ∈ updates)
    (hhas : hasKey r k = true) :
    dget (updateRecord r updates now) k = some v := by
  unfold updateRecord
  rw [dget_dset_ne _ _ _ _ hk]
  exact dget_applyUpdates_mem updates r k v hnd hmem hhas

theorem hasKey_updateRecord (r : Record) (updates : List (String × Value))
    (now : Int) (k : String) (hUA : hasKey r "updated_at" = true) :
    hasKey (updateRecord r updates now) k = hasKey r k := by
  unfold updateRecord dset
  rw [hasKey_applyUpdates updates r "updated_at"] at *
  simp only [hUA, if_true]
  rw [hasKey_setKey, hasKey_applyUpdates]

theorem updateInList_split (itemId : String) (updates : List (String × Value))
    (now : Int) (pre post : List Record) (r : Record)
    (hpre : ∀ x ∈ pre, idMatches x itemId = false)
    (hr : idMatches r itemId = true) :
    updateInList itemId updates now (pre ++ r :: post) =
      some (pre ++ updateRecord r updates now :: post) := by
  induction pre with
  | nil => simp [updateInList, hr]
  | cons x xs ih =>
      have hx : idMatches x itemId = false := hpre x (by simp)
      simp only [List.cons_append, updateInList, hx, Bool.false_eq_true, if_false,
        List.append_eq]
      rw [ih (fun y hy => hpre y (by simp [hy]))]
      rfl

theorem updateInList_none (itemId : String) (updates : List (String × Value))
    (now : Int) (items : List Record)
    (h : ∀ x ∈ items, idMatches x itemId = false) :
    updateInList itemId updates now items = none := by
  induction items with
  | nil => rfl
  | cons x xs ih =>
      have hx : idMatches x itemId = false := h x (by simp)
      simp [updateInList, hx, ih (fun y hy => h y (by simp [hy]))]

/-- Shared concrete example state: one note, empty articles and research. -/
def exNote : Record := mkNote "n1" (.vStr "t") (.vStr "c") none none 0 0

/-- Shared concrete example knowledge base holding only `exNote`. -/
def exKB : KBState := mkKB [exNote] [] []

/-! ### C1 -/

/-- C1 (amended): none of the add operations performs any validation.  Every
add call succeeds, returns the fresh id, and appends the record -- with
whatever title / content / url values were supplied, including the empty
string and `None` -- to its collection, which is then persisted. -/
theorem C1_no_validation (s : KBState) (newId : String)
    (title content url summary source : Value)
    (tags tickers : Option (List String)) (t1 t2 : Int) :
    (addNote s newId title content tags tickers t1 t2).1 = newId
    ∧ loadData (addNote s newId title content tags tickers t1 t2).2.notes
        = loadData s.notes ++ [mkNote newId title content tags tickers t1 t2]
    ∧ dget (mkNote newId title content tags tickers t1 t2) "title" = some title
    ∧ dget (mkNote newId title content tags tickers t1 t2) "content" = some content
    ∧ (addArticle s newId title url summary content tags tickers t1 t2).1 = newId
    ∧ loadData (addArticle s newId title url summary content tags tickers t1 t2).2.articles
        = loadData s.articles ++ [mkArticle newId title url summary content tags tickers t1 t2]
    ∧ dget (mkArticle newId title url summary content tags tickers t1 t2) "url" = some url
    ∧ (addResearch s newId title content source tags tickers t1 t2).1 = newId
    ∧ loadData (addResearch s newId title content source tags tickers t1 t2).2.research
        = loadData s.research ++ [mkResearch newId title content source tags tickers t1 t2]
    ∧ dget (mkResearch newId title content source tags tickers t1 t2) "content" = some content :=
  ⟨rfl, rfl, rfl, rfl, rfl, rfl, rfl, rfl, rfl, rfl⟩

/-- C1 counterexample: adding a note whose title is the empty string does not
fail -- the malformed record is created and persisted. -/
theorem C1_counterexample :
    loadData (addNote (mkKB [] [] []) "n1" (.vStr "") (.vStr "note body") none none 0 0).2.notes
      = [mkNote "n1" (.vStr "") (.vStr "note body") none none 0 0]
    ∧ dget (mkNote "n1" (.vStr "") (.vStr "note body") none none 0 0) "title"
        = some (.vStr "") :=
  ⟨rfl, rfl⟩

/-! ### C2 -/

/-- C2 (amended): a successful update rewrites exactly the first record whose
id matches; on that record `updated_at` is refreshed, fields not named in
the updates are unchanged, named fields that exist are overwritten, and no
new field name is added.  However `id`, `type` and `created_at` enjoy no
special protection: they are ordinary existing fields, so they too are
overwritten whenever the updates name them (see the counterexample). -/
theorem C2_update_partiality (s : KBState) (itemId : String)
    (updates : List (String × Value)) (itemType : String) (now : Int)
    (fs : FileState) (pre post : List Record) (r : Record)
    (hc : collOf s itemType = some fs)
    (hl : loadData fs = pre ++ r :: post)
    (hpre : ∀ x ∈ pre, idMatches x itemId = false)
    (hr : idMatches r itemId = true)
    (hnd : (updates.map Prod.fst).Nodup) :
    updateItem s itemId updates itemType now =
      (true, setColl s itemType (saveData (pre ++ updateRecord r updates now :: post)))
    ∧ dget (updateRecord r updates now) "updated_at" = some (.vTime now)
    ∧ (∀ k, k ≠ "updated_at" → k ∉ updates.map Prod.fst →
        dget (updateRecord r updates now) k = dget r k)
    ∧ (∀ k v, k ≠ "updated_at" → (k, v) ∈ updates → hasKey r k = true →
        dget (updateRecord r updates now) k = some v)
    ∧ (hasKey r "updated_at" = true →
        ∀ k, hasKey (updateRecord r updates now) k = hasKey r k) := by
  refine ⟨?_, dget_updateRecord_updated_at r updates now, ?_, ?_, ?_⟩
  · unfold updateItem
    rw [hc]
    show (match updateInList itemId updates now (loadData fs) with
          | none => (false, s)
          | some items => (true, setColl s itemType (saveData items))) = _
    rw [hl, updateInList_split itemId updates now pre post r hpre hr]
  · exact fun k hk hmem => dget_updateRecord_not_mem r updates now k hk hmem
  · exact fun k v hk hmem hhas => dget_updateRecord_mem r updates now k v hk hnd hmem hhas
  · exact fun hUA k => hasKey_updateRecord r updates now k hUA

/-- C2 witness: updating only `tags` at time 7 refreshes `updated_at` and
leaves `title` unchanged. -/
theorem C2_update_partiality_witness :
    dget (updateRecord exNote [("tags", Value.vList ["x"])] 7) "updated_at"
      = some (.vTime 7)
    ∧ dget (updateRecord exNote [("tags", Value.vList ["x"])] 7) "title"
      = dget exNote "title"
    ∧ updateItem exKB "n1" [("tags", Value.vList ["x"])] "notes" 7 =
      (true, setColl exKB "notes"
        (saveData ([] ++ updateRecord exNote [("tags", Value.vList ["x"])] 7 :: []))) := by
  have h := C2_update_partiality exKB "n1" [("tags", Value.vList ["x"])] "notes" 7
    (.ok [exNote]) [] [] exNote rfl rfl (by simp) rfl (by simp)
  exact ⟨h.2.1, h.2.2.1 "title" (by decide) (by simp), h.1⟩

/-- C2 counterexample: naming `created_at` in the updates overwrites it, so
"created_at never changes" fails on the code. -/
theorem C2_counterexample :
    (updateItem exKB "n1" [("created_at", Value.vTime 99)] "notes" 50).1 = true
    ∧ dget exNote "created_at" = some (.vTime 0)
    ∧ dget ((loadData
        (updateItem exKB "n1" [("created_at", Value.vTime 99)] "notes" 50).2.notes).headD [])
        "created_at" = some (.vTime 99) :=
  ⟨rfl, rfl, rfl⟩

/-! ### C8 -/

/-- The spec invariant: the record's creation time is no later than its last
update time. -/
def recInv (r : Record) : Prop :=
  ∀ tc tu : Int, dget r "created_at" = some (.vTime tc) →
    dget r "updated_at" = some (.vTime tu) → tc ≤ tu

/-- C8 (amended): `created_at ≤ updated_at` holds for every freshly added
record provided the two successive clock reads are ordered, and is preserved
by an update provided the updates do not name `created_at` and the update
time is not earlier than the record's creation time.  (An update naming
`created_at`, or a clock that moved backwards past the creation time, breaks
it -- see the counterexample.) -/
theorem C8_created_le_updated (newId : String)
    (title content url summary source : Value)
    (tags tickers : Option (List String)) (t1 t2 : Int) (h12 : t1 ≤ t2)
    (r : Record) (updates : List (String × Value)) (now c : Int)
    (hno : "created_at" ∉ updates.map Prod.fst)
    (hcr : dget r "created_at" = some (.vTime c)) (hcn : c ≤ now) :
    recInv (mkNote newId title content tags tickers t1 t2)
    ∧ recInv (mkArticle newId title url summary content tags tickers t1 t2)
    ∧ recInv (mkResearch newId title content source tags tickers t1 t2)
    ∧ recInv (updateRecord r updates now) := by
  refine ⟨?_, ?_, ?_, ?_⟩
  · intro tc tu h1 h2
    rw [show dget (mkNote newId title content tags tickers t1 t2) "created_at"
          = some (.vTime t1) from rfl] at h1
    rw [show dget (mkNote newId title content tags tickers t1 t2) "updated_at"
          = some (.vTime t2) from rfl] at h2
    simp only [Option.some.injEq, Value.vTime.injEq] at h1 h2
    omega
  · intro tc tu h1 h2
    rw [show dget (mkArticle newId title url summary content tags tickers t1 t2) "created_at"
          = some (.vTime t1) from rfl] at h1
    rw [show dget (mkArticle newId title url summary content tags tickers t1 t2) "updated_at"
          = some (.vTime t2) from rfl] at h2
    simp only [Option.some.injEq, Value.vTime.injEq] at h1 h2
    omega
  · intro tc tu h1 h2
    rw [show dget (mkResearch newId title content source tags tickers t1 t2) "created_at"
          = some (.vTime t1) from rfl] at h1
    rw [show dget (mkResearch newId title content source tags tickers t1 t2) "updated_at"
          = some (.vTime t2) from rfl] at h2
    simp only [Option.some.injEq, Value.vTime.injEq] at h1 h2
    omega
  · intro tc tu h1 h2
    rw [dget_updateRecord_not_mem r updates now "created_at" (by decide) hno, hcr] at h1
    rw [dget_updateRecord_updated_at] at h2
    simp only [Option.some.injEq, Value.vTime.injEq] at h1 h2
    omega

/-- C8 witness: a concrete add with ordered clock reads and a concrete
`tags`-only update at a later time keep the invariant. -/
theorem C8_created_le_updated_witness :
    recInv (mkNote "n2" (.vStr "t") (.vStr "c") none none 0 1)
    ∧ recInv (updateRecord exNote [("tags", Value.vList ["x"])] 5) := by
  have h := C8_created_le_updated "n2" (.vStr "t") (.vStr "c") (.vStr "u") (.vStr "s")
    (.vStr "src") none none 0 1 (by decide) exNote [("tags", Value.vList ["x"])] 5 0
    (by simp) rfl (by decide)
  exact ⟨h.1, h.2.2.2⟩

/-- C8 counterexample: an update that names `created_at` with a time later
than the update time leaves the record with `created_at > updated_at`. -/
theorem C8_counterexample :
    dget (updateRecord exNote [("created_at", Value.vTime 99)] 50) "created_at"
      = some (.vTime 99)
    ∧ dget (updateRecord exNote [("created_at", Value.vTime 99)] 50) "updated_at"
      = some (.vTime 50)
    ∧ ¬ recInv (updateRecord exNote [("created_at", Value.vTime 99)] 50) := by
  refine ⟨rfl, rfl, fun h => ?_⟩
  have := h 99 50 rfl rfl
  omega

/-! ### C9 -/

/-- C9: an `update_item` or `delete_item` call whose `item_type` is none of
the three collection names returns `False` and leaves the state untouched. -/
theorem C9_unknown_kind (s : KBState) (itemId : String)
    (updates : List (String × Value)) (itemType : String) (now : Int)
    (h1 : itemType ≠ "notes") (h2 : itemType ≠ "articles")
    (h3 : itemType ≠ "research") :
    updateItem s itemId updates itemType now = (false, s)
    ∧ deleteItem s itemId itemType = (false, s) := by
  have hc : collOf s itemType = none := by simp [collOf, h1, h2, h3]
  constructor
  · unfold updateItem
    rw [hc]
  · unfold deleteItem
    rw [hc]

/-- C9 witness at the concrete kind `"foo"`. -/
theorem C9_unknown_kind_witness :
    updateItem exKB "n1" [("title", Value.vStr "x")] "foo" 3 = (false, exKB)
    ∧ deleteItem exKB "n1" "foo" = (false, exKB) :=
  C9_unknown_kind exKB "n1" [("title", Value.vStr "x")] "foo" 3
    (by decide) (by decide) (by decide)

/-! ### C10 -/

/-- C10: a failed load degrades to the empty list, so an update or delete
against a corrupt collection returns `False` and performs no write -- the
backing file is left exactly as it was (still corrupt, not truncated). -/
theorem C10_corrupt_load_no_write (s : KBState) (itemId : String)
    (updates : List (String × Value)) (itemType : String) (now : Int)
    (h : collOf s itemType = some .corrupt) :
    loadData .corrupt = []
    ∧ updateItem s itemId updates itemType now = (false, s)
    ∧ deleteItem s itemId itemType = (false, s) := by
  refine ⟨rfl, ?_, ?_⟩
  · unfold updateItem
    rw [h]
    rfl
  · unfold deleteItem
    rw [h]
    rfl

/-- C10 witness: a knowledge base whose notes file is corrupt. -/
theorem C10_corrupt_load_no_write_witness :
    loadData .corrupt = []
    ∧ updateItem ⟨.corrupt, .ok [], .ok []⟩ "n1" [("title", Value.vStr "x")] "notes" 5
        = (false, ⟨.corrupt, .ok [], .ok []⟩)
    ∧ deleteItem ⟨.corrupt, .ok [], .ok []⟩ "n1" "notes"
        = (false, ⟨.corrupt, .ok [], .ok []⟩) :=
  C10_corrupt_load_no_write ⟨.corrupt, .ok [], .ok []⟩ "n1"
    [("title", Value.vStr "x")] "notes" 5 rfl

/-! ### C6 -/

/-- C6: with a kind given, `get_item` scans only that collection; with no
kind it scans notes, then articles, then research, and returns the first
record whose id matches; it returns `none` exactly when no scanned
collection contains the id. -/
theorem C6_get_item (s : KBState) (itemId : String) :
    getItem s itemId (some "notes")
      = (loadData s.notes).find? (fun r => idMatches r itemId)
    ∧ getItem s itemId (some "articles")
      = (loadData s.articles).find? (fun r => idMatches r itemId)
    ∧ getItem s itemId (some "research")
      = (loadData s.research).find? (fun r => idMatches r itemId)
    ∧ getItem s itemId none
      = (loadData s.notes ++ loadData s.articles ++ loadData s.research).find?
          (fun r => idMatches r itemId)
    ∧ (getItem s itemId none = none ↔
        ∀ r ∈ loadData s.notes ++ loadData s.articles ++ loadData s.research,
          ¬ idMatches r itemId = true) := by
  have h4 : getItem s itemId none
      = (loadData s.notes ++ loadData s.articles ++ loadData s.research).find?
          (fun r => idMatches r itemId) := by
    simp only [List.find?_append, Option.or_assoc]
    simp [getItem]
  refine ⟨?_, ?_, ?_, h4, ?_⟩
  · simp [getItem]
  · simp [getItem]
  · simp [getItem]
  · rw [h4, List.find?_eq_none]

/-! ### C7 -/

theorem collOf_cases (s : KBState) (ty : String) (fs : FileState)
    (hc : collOf s ty = some fs) :
    ty = "notes" ∨ ty = "articles" ∨ ty = "research" := by
  by_contra h
  push_neg at h
  simp [collOf, h.1, h.2.1, h.2.2] at hc

theorem collOf_setColl_self (s : KBState) (ty : String) (fs' : FileState)
    (h : ty = "notes" ∨ ty = "articles" ∨ ty = "research") :
    collOf (setColl s ty fs') ty = some fs' := by
  rcases h with h | h | h <;> subst h <;> simp [collOf, setColl]

theorem deleteItem_eq (s : KBState) (itemId itemType : String) (fs : FileState)
    (hc : collOf s itemType = some fs) :
    deleteItem s itemId itemType =
      (if ((loadData fs).filter (fun r => !(idMatches r itemId))).length
          < (loadData fs).length
       then (true, setColl s itemType
          (saveData ((loadData fs).filter (fun r => !(idMatches r itemId)))))
       else (false, s)) := by
  unfold deleteItem
  rw [hc]

theorem mem_getAllItems_all (s : KBState) (r : Record) :
    r ∈ getAllItems s "all" ↔
      r ∈ loadData s.notes ∨ r ∈ loadData s.articles ∨ r ∈ loadData s.research := by
  simp [getAllItems, or_assoc]

/-- C7: `delete_item` returns `True` iff a record with the id was in the named
collection, in which case the collection is persisted with every such record
removed; a missing id yields `False` (no error) with the state untouched; a
second delete of the same id returns `False` while the first delete's effect
persists, and no record with the id remains in `get_all_items` (given the id
does not also live in another collection). -/
theorem C7_delete_idempotent (s : KBState) (itemId itemType : String)
    (fs : FileState) (hc : collOf s itemType = some fs)
    (hOnly : ∀ ty fs', collOf s ty = some fs' → ty ≠ itemType →
      ∀ r ∈ loadData fs', idMatches r itemId = false) :
    ((deleteItem s itemId itemType).1 = true ↔
      ∃ r ∈ loadData fs, idMatches r itemId = true)
    ∧ ((deleteItem s itemId itemType).1 = false →
        (deleteItem s itemId itemType).2 = s)
    ∧ ((deleteItem s itemId itemType).1 = true →
        (deleteItem s itemId itemType).2 = setColl s itemType
          (saveData ((loadData fs).filter (fun r => !(idMatches r itemId)))))
    ∧ (deleteItem (deleteItem s itemId itemType).2 itemId itemType).1 = false
    ∧ (∀ r ∈ getAllItems (deleteItem s itemId itemType).2 "all",
        idMatches r itemId = false) := by
  have hde := deleteItem_eq s itemId itemType fs hc
  have hlen : (((loadData fs).filter (fun r => !(idMatches r itemId))).length
      < (loadData fs).length) ↔ ∃ r ∈ loadData fs, idMatches r itemId = true := by
    rw [List.length_filter_lt_length_iff_exists]
    simp
  have hcases := collOf_cases s itemType fs hc
  by_cases hex : ∃ r ∈ loadData fs, idMatches r itemId = true
  · have hlt := hlen.mpr hex
    have hd1 : deleteItem s itemId itemType = (true, setColl s itemType
        (saveData ((loadData fs).filter (fun r => !(idMatches r itemId))))) := by
      rw [hde, if_pos hlt]
    have hfilterall : ∀ r ∈ (loadData fs).filter (fun r => !(idMatches r itemId)),
        idMatches r itemId = false := by
      intro r hr
      have := (List.mem_filter.mp hr).2
      simpa using this
    have hsecond : (deleteItem (deleteItem s itemId itemType).2 itemId itemType).1
        = false := by
      rw [hd1]
      have hc2 : collOf (setColl s itemType
          (saveData ((loadData fs).filter (fun r => !(idMatches r itemId))))) itemType
          = some (saveData ((loadData fs).filter (fun r => !(idMatches r itemId)))) :=
        collOf_setColl_self _ _ _ hcases
      rw [deleteItem_eq _ itemId itemType _ hc2]
      have heq : (loadData (saveData ((loadData fs).filter
          (fun r => !(idMatches r itemId))))).filter (fun r => !(idMatches r itemId))
          = (loadData fs).filter (fun r => !(idMatches r itemId)) := by
        show ((loadData fs).filter (fun r => !(idMatches r itemId))).filter
            (fun r => !(idMatches r itemId)) = _
        exact List.filter_eq_self.mpr (fun r hr => (List.mem_filter.mp hr).2)
      rw [if_neg]
      rw [heq]
      exact lt_irrefl _
    refine ⟨by simp [hd1, hex], by simp [hd1], fun _ => by simp [hd1], hsecond, ?_⟩
    intro r hr
    rw [hd1] at hr
    rcases hcases with hty | hty | hty <;> subst hty
    · rw [show setColl s "notes" (saveData ((loadData fs).filter
          (fun r => !(idMatches r itemId)))) = ⟨saveData ((loadData fs).filter
          (fun r => !(idMatches r itemId))), s.articles, s.research⟩ from by
            simp [setColl]] at hr
      rcases (mem_getAllItems_all _ r).mp hr with h | h | h
      · exact hfilterall r h
      · exact hOnly "articles" s.articles (by simp [collOf]) (by decide) r h
      · exact hOnly "research" s.research (by simp [collOf]) (by decide) r h
    · rw [show setColl s "articles" (saveData ((loadData fs).filter
          (fun r => !(idMatches r itemId)))) = ⟨s.notes, saveData ((loadData fs).filter
          (fun r => !(idMatches r itemId))), s.research⟩ from by
            simp [setColl]] at hr
      rcases (mem_getAllItems_all _ r).mp hr with h | h | h
      · exact hOnly "notes" s.notes (by simp [collOf]) (by decide) r h
      · exact hfilterall r h
      · exact hOnly "research" s.research (by simp [collOf]) (by decide) r h
    · rw [show setColl s "research" (saveData ((loadData fs).filter
          (fun r => !(idMatches r itemId)))) = ⟨s.notes, s.articles,
          saveData ((loadData fs).filter (fun r => !(idMatches r itemId)))⟩ from by
            simp [setColl]] at hr
      rcases (mem_getAllItems_all _ r).mp hr with h | h | h
      · exact hOnly "notes" s.notes (by simp [collOf]) (by decide) r h
      · exact hOnly "articles" s.articles (by simp [collOf]) (by decide) r h
      · exact hfilterall r h
  · have hnlt : ¬ (((loadData fs).filter (fun r => !(idMatches r itemId))).length
        < (loadData fs).length) := fun h => hex (hlen.mp h)
    have hd1 : deleteItem s itemId itemType = (false, s) := by
      rw [hde, if_neg hnlt]
    have hall : ∀ r ∈ loadData fs, idMatches r itemId = false := by
      intro r hr
      by_contra h
      exact hex ⟨r, hr, by simpa using h⟩
    refine ⟨by simp [hd1, hex], by simp [hd1], by simp [hd1], ?_, ?_⟩
    · rw [hd1]
      show (deleteItem s itemId itemType).1 = false
      rw [hd1]
    · intro r hr
      rw [hd1] at hr
      rcases hcases with hty | hty | hty <;> subst hty <;>
        rcases (mem_getAllItems_all _ r).mp hr with h | h | h
      · exact hall r (by rw [show fs = s.notes from by simpa [collOf] using hc.symm]; exact h)
      · exact hOnly "articles" s.articles (by simp [collOf]) (by decide) r h
      · exact hOnly "research" s.research (by simp [collOf]) (by decide) r h
      · exact hOnly "notes" s.notes (by simp [collOf]) (by decide) r h
      · exact hall r (by rw [show fs = s.articles from by simpa [collOf] using hc.symm]; exact h)
      · exact hOnly "research" s.research (by simp [collOf]) (by decide) r h
      · exact hOnly "notes" s.notes (by simp [collOf]) (by decide) r h
      · exact hOnly "articles" s.articles (by simp [collOf]) (by decide) r h
      · exact hall r (by rw [show fs = s.research from by simpa [collOf] using hc.symm]; exact h)

/-- C7 witness: deleting the only note by id succeeds; deleting it again
returns `False`; no record with the id survives in `get_all_items`. -/
theorem C7_delete_idempotent_witness :
    ((deleteItem exKB "n1" "notes").1 = true ↔
      ∃ r ∈ loadData (FileState.ok [exNote]), idMatches r "n1" = true)
    ∧ (deleteItem (deleteItem exKB "n1" "notes").2 "n1" "notes").1 = false
    ∧ (∀ r ∈ getAllItems (deleteItem exKB "n1" "notes").2 "all",
        idMatches r "n1" = false) := by
  have h := C7_delete_idempotent exKB "n1" "notes" (.ok [exNote]) rfl (by
    intro ty fs' hc hne r hr
    rcases collOf_cases exKB ty fs' hc with hty | hty | hty <;> subst hty
    · exact absurd rfl hne
    · simp [exKB, mkKB, collOf] at hc
      subst hc
      simp [loadData] at hr
    · simp [exKB, mkKB, collOf] at hc
      subst hc
      simp [loadData] at hr)
  exact ⟨h.1, h.2.2.2.1, h.2.2.2.2⟩

/-! ### C4 -/

/-- The per-term weight of the spec's scoring rule: 3.0 for a title hit,
1.0 for a content hit, 1.5 for a summary hit, each checked once per term. -/
def specTermScore (title content summary term : String) : ℚ :=
  (if substrB term title then 3.0 else 0)
    + (if substrB term content then 1.0 else 0)
    + (if substrB term summary then 1.5 else 0)

theorem foldl_cond_add (w : ℚ) (p : String → Bool) (l : List String) (a : ℚ) :
    l.foldl (fun acc t => if p t then acc + w else acc) a
      = a + (l.map (fun t => if p t then w else 0)).sum := by
  induction l generalizing a with
  | nil => simp
  | cons t ts ih =>
      simp only [List.foldl_cons, List.map_cons, List.sum_cons]
      by_cases h : p t
      · rw [if_pos h, if_pos h, ih]
        ring
      · rw [if_neg h, if_neg h, ih]
        ring

/-- C4: for a record whose text fields survive lowercasing (which holds for
every record that matched without raising), the relevance score is the sum
over the whitespace-split lowercased query terms of the per-term weights,
plus the recency bonus computed from `created_at` (zero, without raising,
when `created_at` does not parse). -/
theorem C4_relevance_formula (r : Record) (query : String) (now : Int)
    (tl cl sl : String) (ht : getLower r "title" = some tl)
    (hc : getLower r "content" = some cl) (hs : getLower r "summary" = some sl) :
    calcRelevance r query now = some
      (((splitWs (lowerStr query)).map (specTermScore tl cl sl)).sum
        + recencyBonus now (dget r "created_at")) := by
  unfold calcRelevance
  rw [ht, hc, hs]
  simp only [Option.pure_def, Option.bind_eq_bind, Option.some_bind, Option.some.injEq]
  rw [foldl_cond_add, foldl_cond_add, foldl_cond_add]
  unfold specTermScore
  rw [List.sum_map_add, List.sum_map_add]
  ring

/-- The spec's scoring example: title "Apple earnings beat", content
"iPhone sales up", created one day ago. -/
def apple35 : Record :=
  mkNote "sc1" (.vStr "Apple earnings beat") (.vStr "iPhone sales up") none none 0 0

/-- C4 witness: the spec example scores 3.0 (title) + 0.5 (recency) = 3.5
for the query "Apple" one day after creation. -/
theorem C4_relevance_formula_witness :
    calcRelevance apple35 "Apple" 86400 = some (3.5 : ℚ) := by
  have h := C4_relevance_formula apple35 "Apple" 86400
    "apple earnings beat" "iphone sales up" "" rfl rfl rfl
  rw [h]
  rw [show splitWs (lowerStr "Apple") = ["apple"] from by decide,
    show dget apple35 "created_at" = some (.vTime 0) from rfl]
  simp only [List.map_cons, List.map_nil, List.sum_cons, List.sum_nil]
  unfold specTermScore recencyBonus parseTime
  rw [show substrB "apple" "apple earnings beat" = true from by decide,
    show substrB "apple" "iphone sales up" = false from by decide,
    show substrB "apple" "" = false from by decide]
  norm_num [show daysOld 86400 0 = (1 : Int) from by decide]

/-! ### C3 -/

/-- Modelled from the spec, for comparison with `_matches_search`: the text
of a field, with absent (or non-string, e.g. `None`) fields read as the
empty string. -/
def specFieldText (r : Record) (k : String) : String :=
  match dget r k with
  | some (.vStr s) => s
  | _ => ""

/-- Modelled from the spec, for comparison: a stored list-of-strings field,
absent read as empty. -/
def specFieldList (r : Record) (k : String) : List String :=
  match dget r k with
  | some (.vList l) => l
  | _ => []

/-- Modelled from the spec (§4.3 matching predicate), for comparison with
`_matches_search`: the whole query as one case-insensitive literal substring
of title, content or summary (absent treated as empty), AND the ticker
filter, AND the tag filter. -/
def specMatches (r : Record) (query : String) (ticker : Option String)
    (tags : Option (List String)) : Bool :=
  let q := lowerStr query
  (substrB q (lowerStr (specFieldText r "title"))
      || substrB q (lowerStr (specFieldText r "content"))
      || substrB q (lowerStr (specFieldText r "summary")))
    && (match ticker with
        | none => true
        | some t =>
            ((specFieldList r "related_tickers").map upperStr).contains (upperStr t))
    && (match tags with
        | none => true
        | some ts =>
            ts.any fun t =>
              ((specFieldList r "tags").map lowerStr).contains (lowerStr t))

/-- An article stored by `add_article` with the `content` argument omitted:
the dict holds `content = None`. -/
def noneContentArticle : Record :=
  mkArticle "a1" (.vStr "Apple news") (.vStr "http://x") (.vStr "short summary")
    .vNone none none 0 0

/-- C3 (code bug): for an article stored without content -- exactly what
`add_article` produces when `content` is omitted, as in the repo's own
`__main__` demo -- the spec predicate matches (query in title), but
`_matches_search` evaluates `item.get('content', '').lower()` on `None`
and raises; `search_knowledge_base` catches the exception and returns `[]`,
dropping every record, even a plainly matching note. -/
theorem C3_none_content_crash :
    specMatches noneContentArticle "Apple" none none = true
    ∧ matchesSearch noneContentArticle "Apple" none none = none
    ∧ searchKB (mkKB [] [noneContentArticle] []) "Apple" "all" none none 0 = []
    ∧ searchKB (mkKB [mkNote "n0" (.vStr "apple pie") (.vStr "x") none none 0 0]
        [noneContentArticle] []) "Apple" "all" none none 0 = [] :=
  ⟨by decide, rfl, rfl, rfl⟩

/-! ### C5 -/

instance : IsTotal SearchResult (fun a b => b.score ≤ a.score) :=
  ⟨fun a b => le_total b.score a.score⟩

instance : IsTrans SearchResult (fun a b => b.score ≤ a.score) :=
  ⟨fun _ _ _ h1 h2 => le_trans h2 h1⟩

theorem filter_orderedInsert_score (a : SearchResult) (m : List SearchResult)
    (c : ℚ) :
    (List.orderedInsert (fun x y => y.score ≤ x.score) a m).filter
        (fun x => decide (x.score = c))
      = if a.score = c
        then a :: m.filter (fun x => decide (x.score = c))
        else m.filter (fun x => decide (x.score = c)) := by
  induction m with
  | nil =>
      by_cases h : a.score = c <;> simp [List.orderedInsert, h]
  | cons b m ih =>
      by_cases hr : b.score ≤ a.score
      · rw [List.orderedInsert, if_pos hr]
        by_cases ha : a.score = c <;> simp [List.filter_cons, ha]
      · rw [List.orderedInsert, if_neg hr]
        by_cases ha : a.score = c
        · have hb : ¬ b.score = c := fun hbc => hr (le_of_eq (hbc.trans ha.symm))
          simp [List.filter_cons, hb, ih, ha]
        · simp [List.filter_cons, ih, ha]

theorem sortByScore_filter (l : List SearchResult) (c : ℚ) :
    (sortByScore l).filter (fun x => decide (x.score = c))
      = l.filter (fun x => decide (x.score = c)) := by
  induction l with
  | nil => rfl
  | cons a l ih =>
      show (List.orderedInsert _ a (sortByScore l)).filter _ = _
      rw [filter_orderedInsert_score, ih]
      by_cases ha : a.score = c <;> simp [List.filter_cons, ha]

/-- C5: the search result is always sorted by relevance score descending;
whenever the match phase completes without raising, the result is a
permutation of the discovery-ordered match list in which records of equal
score keep their discovery order (notes before articles before research,
each in storage order); and the whole operation is a pure function of its
arguments, hence deterministic. -/
theorem C5_search_sorted_stable (s : KBState) (query searchType : String)
    (ticker : Option String) (tags : Option (List String)) (now : Int)
    (matched : List SearchResult)
    (h : searchAll (searchCollections searchType s) query ticker tags now
      = some matched) :
    (∀ (s₂ : KBState) (q₂ ty₂ : String) (tk₂ : Option String)
        (tg₂ : Option (List String)) (n₂ : Int),
      (searchKB s₂ q₂ ty₂ tk₂ tg₂ n₂).Pairwise (fun a b => b.score ≤ a.score))
    ∧ (searchKB s query searchType ticker tags now).Perm matched
    ∧ (∀ c : ℚ, (searchKB s query searchType ticker tags now).filter
        (fun x => decide (x.score = c))
        = matched.filter (fun x => decide (x.score = c)))
    ∧ searchKB s query searchType ticker tags now
        = searchKB s query searchType ticker tags now := by
  have hk : searchKB s query searchType ticker tags now = sortByScore matched := by
    unfold searchKB
    rw [h]
  refine ⟨?_, ?_, ?_, rfl⟩
  · intro s₂ q₂ ty₂ tk₂ tg₂ n₂
    unfold searchKB
    cases hm : searchAll (searchCollections ty₂ s₂) q₂ tk₂ tg₂ n₂ with
    | none => exact List.Pairwise.nil
    | some m => exact List.sorted_insertionSort _ m
  · rw [hk]
    exact List.perm_insertionSort _ matched
  · intro c
    rw [hk]
    exact sortByScore_filter matched c

/-- Concrete search-witness records: two notes of equal score and one that
scores higher. -/
def w1 : Record := mkNote "w1" (.vStr "alpha") (.vStr "beta") none none 0 0

def w2 : Record := mkNote "w2" (.vStr "alpha") (.vStr "beta") none none 0 0

def w3 : Record := mkNote "w3" (.vStr "x alpha") (.vStr "alpha") none none 0 0

def wKB : KBState := mkKB [w1, w2, w3] [] []

/-- C5 witness: on a concrete three-note state (two tied scores, one higher)
the match phase completes, and the search output is sorted descending, a
permutation of the match list, with per-score discovery order preserved. -/
theorem C5_search_sorted_stable_witness :
    ∃ m, searchAll (searchCollections "all" wKB) "alpha" none none 10000000 = some m
      ∧ (searchKB wKB "alpha" "all" none none 10000000).Pairwise
          (fun a b => b.score ≤ a.score)
      ∧ (searchKB wKB "alpha" "all" none none 10000000).Perm m
      ∧ (∀ c : ℚ, (searchKB wKB "alpha" "all" none none 10000000).filter
          (fun x => decide (x.score = c)) = m.filter (fun x => decide (x.score = c))) := by
  have hs : (searchAll (searchCollections "all" wKB) "alpha" none none 10000000).isSome
      = true := by decide
  cases hm : searchAll (searchCollections "all" wKB) "alpha" none none 10000000 with
  | none =>
      rw [hm] at hs
      simp at hs
  | some m =>
      have h := C5_search_sorted_stable wKB "alpha" "all" none none 10000000 m hm
      exact ⟨m, rfl, h.1 wKB "alpha" "all" none none 10000000, h.2.1, h.2.2.1⟩

end EquityKB
